import Mathlib

/-!
Verification of the QualityPilot step-execution engine
(`packages/backend/src/executor/testExecutor.ts`, cancellation-aware variant,
together with `pageInspector.ts`, `ai/geminiAgent.ts` and `queue/queue.ts`)
against its natural-language specification.

The TypeScript source is shallowly embedded: browser interactions are
abstracted into oracles (the outcome of executing a step, the number of
elements a locator matches, ...), while every piece of control flow, string
processing and event emission that the claims speak about is translated
directly from the source.
-/

namespace QP

/- ### JavaScript-style string primitives

JS strings are modelled as Lean `String` (lists of characters); the handful
of `String.prototype` operations the source uses (`includes`, `trim`,
`replace` with a global literal pattern, `parseInt`, `String()` of a number)
are defined below on `List Char`.
-/

def spaceChar : Char := Char.ofNat 32

def tabChar : Char := Char.ofNat 9

def lfChar : Char := Char.ofNat 10

def crChar : Char := Char.ofNat 13

def minusChar : Char := Char.ofNat 45

def plusChar : Char := Char.ofNat 43

def quoteD : Char := Char.ofNat 34

def quoteS : Char := Char.ofNat 39

/-- whitespace as skipped by `parseInt` / removed by `trim` (common cases). -/
def isJsSpace (c : Char) : Bool :=
  c == spaceChar || c == tabChar || c == lfChar || c == crChar

/-- ASCII decimal digit. -/
def isDigitC (c : Char) : Bool :=
  48 ≤ c.toNat && c.toNat ≤ 57

def digitValC (c : Char) : Nat := c.toNat - 48

/-- `matchesAt pat hay` : `pat` is a prefix of `hay`. -/
def matchesAt : List Char → List Char → Bool
  | [], _ => true
  | _ :: _, [] => false
  | p :: ps, h :: hs => p == h && matchesAt ps hs

/-- `containsSub pat hay` : `pat` occurs somewhere inside `hay`
(JS `String.prototype.includes`). -/
def containsSub (pat : List Char) : List Char → Bool
  | [] => matchesAt pat []
  | h :: t => matchesAt pat (h :: t) || containsSub pat t

/-- JS `hay.includes(sub)`. -/
def strIncludes (hay sub : String) : Bool :=
  containsSub sub.data hay.data

/-- JS `s.trim()`. -/
def jsTrim (s : String) : String :=
  String.mk ((((s.data.dropWhile isJsSpace).reverse.dropWhile isJsSpace).reverse))

/- ### Decimal printing and `parseInt` -/

/-- decimal digits of a natural number, most significant first. -/
def natToDigits (n : Nat) : List Char :=
  if n < 10 then [Nat.digitChar n]
  else natToDigits (n / 10) ++ [Nat.digitChar (n % 10)]
termination_by n
decreasing_by
  exact Nat.div_lt_self (by omega) (by omega)

/-- JS `String(x)` for an integral number. -/
def intToDecimal (k : Int) : String :=
  if k < 0 then String.mk (minusChar :: natToDigits k.natAbs)
  else String.mk (natToDigits k.natAbs)

/-- parse the leading run of decimal digits; `none` when there is none
(`parseInt` returning `NaN`). -/
def parseLeadingNat (cs : List Char) : Option Nat :=
  let ds := cs.takeWhile isDigitC
  if ds.isEmpty then none
  else some (ds.foldl (fun a c => 10 * a + digitValC c) 0)

/-- sign handling of `parseInt` after whitespace has been skipped. -/
def parseSigned : List Char → Option Int
  | [] => none
  | c :: rest =>
    if c = minusChar then (parseLeadingNat rest).map (fun n => -(n : Int))
    else if c = plusChar then (parseLeadingNat rest).map (fun n => (n : Int))
    else (parseLeadingNat (c :: rest)).map (fun n => (n : Int))

/-- JS `Number.parseInt(s, 10)`: skip leading whitespace, optional sign,
leading decimal digits; `none` models `NaN`. -/
def jsParseInt (s : String) : Option Int :=
  parseSigned (s.data.dropWhile isJsSpace)

theorem digitChar_isDigit : ∀ d, d < 10 → isDigitC (Nat.digitChar d) = true := by
  decide

theorem digitChar_val : ∀ d, d < 10 → digitValC (Nat.digitChar d) = d := by
  decide

theorem digitChar_not_space : ∀ d, d < 10 → isJsSpace (Nat.digitChar d) = false := by
  decide

theorem digitChar_ne_minus : ∀ d, d < 10 → Nat.digitChar d ≠ minusChar := by
  decide

theorem digitChar_ne_plus : ∀ d, d < 10 → Nat.digitChar d ≠ plusChar := by
  decide

theorem natToDigits_ne_nil (n : Nat) : natToDigits n ≠ [] := by
  rw [natToDigits]
  split <;> simp

theorem natToDigits_all_digit (n : Nat) : ∀ c ∈ natToDigits n, isDigitC c = true := by
  induction n using Nat.strong_induction_on with
  | _ n ih =>
    rw [natToDigits]
    split
    · intro c hc
      simp only [List.mem_singleton] at hc
      subst hc
      exact digitChar_isDigit n (by omega)
    · intro c hc
      rcases List.mem_append.mp hc with h | h
      · exact ih (n / 10) (Nat.div_lt_self (by omega) (by omega)) c h
      · simp only [List.mem_singleton] at h
        subst h
        exact digitChar_isDigit (n % 10) (Nat.mod_lt _ (by omega))

theorem natToDigits_foldl (n : Nat) :
    ∀ a, (natToDigits n).foldl (fun a c => 10 * a + digitValC c) a =
      a * 10 ^ (natToDigits n).length + n := by
  induction n using Nat.strong_induction_on with
  | _ n ih =>
    rw [natToDigits]
    split
    · intro a
      simp [digitChar_val n (by omega)]
      ring
    · intro a
      rw [List.foldl_append]
      rw [ih (n / 10) (Nat.div_lt_self (by omega) (by omega))]
      simp [digitChar_val (n % 10) (Nat.mod_lt _ (by omega)), List.length_append]
      rw [Nat.pow_succ]
      have hmod := Nat.div_add_mod n 10
      ring_nf
      omega

theorem takeWhile_of_all {p : Char → Bool} :
    ∀ cs : List Char, (∀ c ∈ cs, p c = true) → cs.takeWhile p = cs := by
  intro cs
  induction cs with
  | nil => intro _; rfl
  | cons c t ih =>
    intro h
    simp only [List.takeWhile_cons]
    rw [h c (by simp)]
    simp only [if_true]
    rw [ih (fun x hx => h x (by simp [hx]))]

theorem dropWhile_of_head_false {p : Char → Bool} (c : Char) (t : List Char)
    (h : p c = false) : (c :: t).dropWhile p = c :: t := by
  simp [List.dropWhile, h]

theorem parseLeadingNat_natToDigits (n : Nat) :
    parseLeadingNat (natToDigits n) = some n := by
  unfold parseLeadingNat
  rw [takeWhile_of_all _ (natToDigits_all_digit n)]
  have hne := natToDigits_ne_nil n
  simp only [List.isEmpty_iff]
  rw [if_neg hne]
  rw [natToDigits_foldl n 0]
  simp

theorem digit_not_space {c : Char} (h : isDigitC c = true) : isJsSpace c = false := by
  by_contra hb
  have hs : isJsSpace c = true := by revert hb; cases isJsSpace c <;> simp
  unfold isJsSpace at hs
  simp only [Bool.or_eq_true, beq_iff_eq] at hs
  rcases hs with ((hc | hc) | hc) | hc <;> subst hc <;> exact absurd h (by decide)

theorem digit_ne_minus {c : Char} (h : isDigitC c = true) : ¬(c = minusChar) := by
  intro hc
  subst hc
  exact absurd h (by decide)

theorem digit_ne_plus {c : Char} (h : isDigitC c = true) : ¬(c = plusChar) := by
  intro hc
  subst hc
  exact absurd h (by decide)

/-- decimal printing and `parseInt` round-trip on integers: the selector
string built from a numeric `expected` parses back to the same number. -/
theorem jsParseInt_intToDecimal (k : Int) : jsParseInt (intToDecimal k) = some k := by
  unfold intToDecimal jsParseInt
  by_cases hk : k < 0
  · rw [if_pos hk]
    have hmns : isJsSpace minusChar = false := by decide
    simp only [String.data]
    rw [dropWhile_of_head_false _ _ hmns]
    have hna : ((k.natAbs : Int)) = -k := by omega
    simp [parseSigned, parseLeadingNat_natToDigits, hna]
  · rw [if_neg hk]
    have hd := natToDigits_all_digit k.natAbs
    obtain ⟨c, t, hct⟩ : ∃ c t, natToDigits k.natAbs = c :: t := by
      cases h : natToDigits k.natAbs with
      | nil => exact absurd h (natToDigits_ne_nil _)
      | cons c t => exact ⟨c, t, rfl⟩
    have hcd : isDigitC c = true := hd c (by rw [hct]; simp)
    have hna : ((k.natAbs : Int)) = k := by omega
    simp only [String.data]
    rw [hct, dropWhile_of_head_false _ _ (digit_not_space hcd)]
    simp only [parseSigned, if_neg (digit_ne_minus hcd), if_neg (digit_ne_plus hcd)]
    rw [← hct, parseLeadingNat_natToDigits]
    simp [hna]

/- ### Global substring replacement with JS replacement-string semantics

`injectCredentials` calls `value.replace(new RegExp("\\\x7b\\\x7b" + key +
"\\\x7d\\\x7d", "g"), value)`.  The key is interpolated into the regex
source unescaped, so the pattern is the literal text `\x7b\x7bkey\x7d\x7d`
exactly when the key contains no regex metacharacter (`isRegexSpecial`
below); the claims about substitution are scoped to such keys.  The
replacement argument is a string, to which ECMAScript GetSubstitution
applies dollar-pattern processing: `$$` collapses to `$`, `$&` re-inserts
the matched text, a dollar followed by a backquote inserts the part of the
original subject before the match, `$\x27` the part after it, and — the
pattern having no capture groups — any other `$` stays literal.  The
replacement is therefore modelled as: split the subject at every
left-to-right non-overlapping occurrence of the pattern, and rejoin with
the GetSubstitution image of the replacement at each occurrence. -/

def dollarChar : Char := Char.ofNat 36

def ampChar : Char := Char.ofNat 38

def backtickChar : Char := Char.ofNat 96

def joinWith (sep : List Char) : List (List Char) → List Char
  | [] => []
  | [p] => p
  | p :: q :: ps => p ++ sep ++ joinWith sep (q :: ps)

/-- split at every (left-to-right, non-overlapping) occurrence of `pat`;
fuelled so that the recursion is structural — the fuel is instantiated with
the subject length and is never exhausted. -/
def scanSplitF (pat : List Char) : Nat → List Char → List (List Char)
  | _, [] => [[]]
  | 0, s => [s]
  | fuel + 1, c :: rest =>
    if !pat.isEmpty && matchesAt pat (c :: rest) then
      [] :: scanSplitF pat fuel (rest.drop (pat.length - 1))
    else
      match scanSplitF pat fuel rest with
      | [] => [[c]]
      | p :: ps => (c :: p) :: ps

def scanSplit (pat s : List Char) : List (List Char) :=
  scanSplitF pat s.length s

/-- ECMAScript GetSubstitution for a string replacement and a pattern
without capture groups: `$$`, `$&`, dollar-backquote and `$\x27` are
interpreted; any other `$` stays literal. -/
def getSubstitution (matched before after : List Char) : List Char → List Char
  | [] => []
  | [c] => if c = dollarChar then [dollarChar] else [c]
  | c :: d :: rest2 =>
    if c = dollarChar then
      if d = dollarChar then dollarChar :: getSubstitution matched before after rest2
      else if d = ampChar then matched ++ getSubstitution matched before after rest2
      else if d = backtickChar then before ++ getSubstitution matched before after rest2
      else if d = quoteS then after ++ getSubstitution matched before after rest2
      else dollarChar :: getSubstitution matched before after (d :: rest2)
    else c :: getSubstitution matched before after (d :: rest2)

/-- splice the pieces back together, inserting the substituted replacement
at every occurrence; `acc` carries the original text preceding the current
piece, so the dollar-backquote / `$\x27` contexts are those of the original
subject, as the spec of `replace` demands. -/
def assembleReplace (pat rep : List Char) : List Char → List (List Char) → List Char
  | _, [] => []
  | _, [p] => p
  | acc, p :: q :: ps =>
    p ++ getSubstitution pat (acc ++ p) (joinWith pat (q :: ps)) rep ++
      assembleReplace pat rep (acc ++ p ++ pat) (q :: ps)

/-- JS `s.replace(new RegExp(escaped-braces pattern, "g"), rep)` for a key
free of regex metacharacters: global replacement with GetSubstitution
applied to `rep` at every occurrence. -/
def jsReplaceAll (pat rep s : String) : String :=
  String.mk (assembleReplace pat.data rep.data [] (scanSplit pat.data s.data))

theorem scanSplitF_nil (pat : List Char) (fuel : Nat) : scanSplitF pat fuel [] = [[]] := by
  cases fuel <;> rfl

theorem scanSplitF_zero_cons (pat : List Char) (c : Char) (rest : List Char) :
    scanSplitF pat 0 (c :: rest) = [c :: rest] := rfl

theorem scanSplitF_succ_cons (pat : List Char) (fuel : Nat) (c : Char) (rest : List Char) :
    scanSplitF pat (fuel + 1) (c :: rest) =
      if !pat.isEmpty && matchesAt pat (c :: rest) then
        [] :: scanSplitF pat fuel (rest.drop (pat.length - 1))
      else
        match scanSplitF pat fuel rest with
        | [] => [[c]]
        | p :: ps => (c :: p) :: ps := rfl

theorem scanSplitF_succ_cons_match (pat : List Char) (fuel : Nat) (c : Char)
    (rest : List Char) (hc : (!pat.isEmpty && matchesAt pat (c :: rest)) = true) :
    scanSplitF pat (fuel + 1) (c :: rest) =
      [] :: scanSplitF pat fuel (rest.drop (pat.length - 1)) := by
  rw [scanSplitF_succ_cons, if_pos hc]

theorem scanSplitF_succ_cons_nomatch (pat : List Char) (fuel : Nat) (c : Char)
    (rest p : List Char) (ps : List (List Char))
    (hc : (!pat.isEmpty && matchesAt pat (c :: rest)) = false)
    (hms : scanSplitF pat fuel rest = p :: ps) :
    scanSplitF pat (fuel + 1) (c :: rest) = (c :: p) :: ps := by
  rw [scanSplitF_succ_cons, if_neg (by simp [hc]), hms]

theorem scanSplitF_ne_nil (pat : List Char) :
    ∀ (fuel : Nat) (s : List Char), scanSplitF pat fuel s ≠ [] := by
  intro fuel
  induction fuel with
  | zero =>
    intro s
    cases s with
    | nil => simp [scanSplitF_nil]
    | cons c rest => simp [scanSplitF_zero_cons]
  | succ fuel ih =>
    intro s
    cases s with
    | nil => simp [scanSplitF_nil]
    | cons c rest =>
      cases hc : (!pat.isEmpty && matchesAt pat (c :: rest)) with
      | true =>
        rw [scanSplitF_succ_cons_match pat fuel c rest hc]
        simp
      | false =>
        cases hms : scanSplitF pat fuel rest with
        | nil => exact absurd hms (ih rest)
        | cons p ps =>
          rw [scanSplitF_succ_cons_nomatch pat fuel c rest p ps hc hms]
          simp

theorem matchesAt_iff : ∀ (pat hay : List Char), matchesAt pat hay = true ↔ pat <+: hay := by
  intro pat
  induction pat with
  | nil =>
    intro hay
    simp [matchesAt]
  | cons p ps ih =>
    intro hay
    cases hay with
    | nil => simp [matchesAt]
    | cons h hs =>
      simp [matchesAt, List.cons_prefix_cons, ih hs]

theorem scanSplitF_head_prefix (pat : List Char) :
    ∀ (fuel : Nat) (s p : List Char) (ps : List (List Char)),
      scanSplitF pat fuel s = p :: ps → p <+: s := by
  intro fuel
  induction fuel with
  | zero =>
    intro s p ps h
    cases s with
    | nil =>
      rw [scanSplitF_nil] at h
      injection h with h1 h2
      subst h1
      simp
    | cons c rest =>
      rw [scanSplitF_zero_cons] at h
      injection h with h1 h2
      subst h1
      exact List.prefix_refl _
  | succ fuel ih =>
    intro s p ps h
    cases s with
    | nil =>
      rw [scanSplitF_nil] at h
      injection h with h1 h2
      subst h1
      simp
    | cons c rest =>
      cases hc : (!pat.isEmpty && matchesAt pat (c :: rest)) with
      | true =>
        rw [scanSplitF_succ_cons_match pat fuel c rest hc] at h
        injection h with h1 h2
        subst h1
        simp
      | false =>
        cases hms : scanSplitF pat fuel rest with
        | nil => exact absurd hms (scanSplitF_ne_nil pat fuel rest)
        | cons q qs =>
          rw [scanSplitF_succ_cons_nomatch pat fuel c rest q qs hc hms] at h
          injection h with h1 h2
          subst h1
          exact List.cons_prefix_cons.mpr ⟨rfl, ih rest q qs hms⟩

theorem scanSplitF_pieces_free (pat : List Char) (hp : pat ≠ []) :
    ∀ (fuel : Nat) (s : List Char), s.length ≤ fuel →
      ∀ q ∈ scanSplitF pat fuel s, containsSub pat q = false := by
  intro fuel
  induction fuel with
  | zero =>
    intro s hlen q hq
    have hs : s = [] := by
      cases s with
      | nil => rfl
      | cons c r => simp at hlen
    subst hs
    rw [scanSplitF_nil] at hq
    simp at hq
    subst hq
    cases pat with
    | nil => exact absurd rfl hp
    | cons a as => simp [containsSub, matchesAt]
  | succ fuel ih =>
    intro s hlen q hq
    cases s with
    | nil =>
      rw [scanSplitF_nil] at hq
      simp at hq
      subst hq
      cases pat with
      | nil => exact absurd rfl hp
      | cons a as => simp [containsSub, matchesAt]
    | cons c rest =>
      have hrest : rest.length ≤ fuel := by
        simp at hlen
        omega
      cases hc : (!pat.isEmpty && matchesAt pat (c :: rest)) with
      | true =>
        rw [scanSplitF_succ_cons_match pat fuel c rest hc] at hq
        simp only [List.mem_cons] at hq
        rcases hq with hq | hq
        · subst hq
          cases pat with
          | nil => exact absurd rfl hp
          | cons a as => simp [containsSub, matchesAt]
        · refine ih (rest.drop (pat.length - 1)) ?_ q hq
          simp only [List.length_drop]
          omega
      | false =>
        cases hms : scanSplitF pat fuel rest with
        | nil => exact absurd hms (scanSplitF_ne_nil pat fuel rest)
        | cons p ps =>
          rw [scanSplitF_succ_cons_nomatch pat fuel c rest p ps hc hms] at hq
          simp only [List.mem_cons] at hq
          rcases hq with hq | hq
          · subst hq
            have hfree : containsSub pat p = false := by
              refine ih rest hrest p ?_
              rw [hms]
              simp
            have hpre : p <+: rest := scanSplitF_head_prefix pat fuel rest p ps hms
            have hm : matchesAt pat (c :: p) = false := by
              by_contra hb
              have hmt : matchesAt pat (c :: p) = true := by
                revert hb
                cases matchesAt pat (c :: p) <;> simp
              have h3 : (c :: p) <+: (c :: rest) := List.cons_prefix_cons.mpr ⟨rfl, hpre⟩
              have h4 : pat <+: (c :: rest) := ((matchesAt_iff pat (c :: p)).mp hmt).trans h3
              have h5 : matchesAt pat (c :: rest) = true := (matchesAt_iff pat (c :: rest)).mpr h4
              rw [h5] at hc
              simp [List.isEmpty_iff, hp] at hc
            simp [containsSub, hm, hfree]
          · refine ih rest hrest q ?_
            rw [hms]
            simp [hq]

theorem joinWith_cons_cons (sep : List Char) (c : Char) (p : List Char)
    (ps : List (List Char)) :
    joinWith sep ((c :: p) :: ps) = c :: joinWith sep (p :: ps) := by
  cases ps <;> simp [joinWith]

theorem scanSplitF_join (pat : List Char) :
    ∀ (fuel : Nat) (s : List Char), s.length ≤ fuel →
      joinWith pat (scanSplitF pat fuel s) = s := by
  intro fuel
  induction fuel with
  | zero =>
    intro s hlen
    have hs : s = [] := by
      cases s with
      | nil => rfl
      | cons c r => simp at hlen
    subst hs
    rw [scanSplitF_nil]
    rfl
  | succ fuel ih =>
    intro s hlen
    cases s with
    | nil =>
      rw [scanSplitF_nil]
      rfl
    | cons c rest =>
      have hrest : rest.length ≤ fuel := by
        simp at hlen
        omega
      cases hc : (!pat.isEmpty && matchesAt pat (c :: rest)) with
      | true =>
        rw [scanSplitF_succ_cons_match pat fuel c rest hc]
        simp only [Bool.and_eq_true] at hc
        obtain ⟨h1, h2⟩ := hc
        have hlp : pat ≠ [] := by
          intro h
          rw [h] at h1
          simp at h1
        have hpre : pat <+: (c :: rest) := (matchesAt_iff pat (c :: rest)).mp h2
        obtain ⟨t, ht⟩ := hpre
        have hdrop : rest.drop (pat.length - 1) = t := by
          cases hpat : pat with
          | nil => exact absurd hpat hlp
          | cons a as =>
            have hdl : (pat ++ t).drop pat.length = t := by simp
            rw [ht] at hdl
            rw [hpat] at hdl
            simpa using hdl
        cases hqs : scanSplitF pat fuel (rest.drop (pat.length - 1)) with
        | nil => exact absurd hqs (scanSplitF_ne_nil pat fuel _)
        | cons q qs2 =>
          have ihh := ih (rest.drop (pat.length - 1))
            (by simp only [List.length_drop]; omega)
          rw [hqs] at ihh
          have hj : joinWith pat ([] :: q :: qs2) = pat ++ joinWith pat (q :: qs2) := by
            simp [joinWith]
          rw [hj, ihh, hdrop, ht]
      | false =>
        cases hms : scanSplitF pat fuel rest with
        | nil => exact absurd hms (scanSplitF_ne_nil pat fuel rest)
        | cons p ps =>
          rw [scanSplitF_succ_cons_nomatch pat fuel c rest p ps hc hms]
          have ihr := ih rest hrest
          rw [hms] at ihr
          rw [joinWith_cons_cons, ihr]

theorem scanSplit_ne_nil (pat s : List Char) : scanSplit pat s ≠ [] :=
  scanSplitF_ne_nil pat s.length s

theorem scanSplit_pieces_free (pat : List Char) (hp : pat ≠ []) (s : List Char) :
    ∀ q ∈ scanSplit pat s, containsSub pat q = false :=
  scanSplitF_pieces_free pat hp s.length s (le_refl _)

theorem scanSplit_join (pat s : List Char) : joinWith pat (scanSplit pat s) = s :=
  scanSplitF_join pat s.length s (le_refl _)

/-- a replacement string without `$` is inserted verbatim. -/
def noDollar (cs : List Char) : Bool := cs.all (fun c => !(c == dollarChar))

theorem getSubstitution_single (matched before after : List Char) (c : Char) :
    getSubstitution matched before after [c] =
      if c = dollarChar then [dollarChar] else [c] := rfl

theorem getSubstitution_two (matched before after : List Char) (c d : Char)
    (rest2 : List Char) :
    getSubstitution matched before after (c :: d :: rest2) =
      if c = dollarChar then
        if d = dollarChar then dollarChar :: getSubstitution matched before after rest2
        else if d = ampChar then matched ++ getSubstitution matched before after rest2
        else if d = backtickChar then before ++ getSubstitution matched before after rest2
        else if d = quoteS then after ++ getSubstitution matched before after rest2
        else dollarChar :: getSubstitution matched before after (d :: rest2)
      else c :: getSubstitution matched before after (d :: rest2) := rfl

theorem getSubstitution_no_dollar (matched before after : List Char) :
    ∀ rep, noDollar rep = true → getSubstitution matched before after rep = rep := by
  intro rep
  induction rep with
  | nil => intro _; rfl
  | cons c rest ih =>
    intro h
    simp only [noDollar, List.all_cons, Bool.and_eq_true] at h
    have hc : ¬(c = dollarChar) := by
      intro hcc
      rw [hcc] at h
      simp at h
    cases rest with
    | nil =>
      rw [getSubstitution_single, if_neg hc]
    | cons d rest2 =>
      rw [getSubstitution_two, if_neg hc, ih h.2]

theorem assembleReplace_no_dollar (pat rep : List Char) (hd : noDollar rep = true) :
    ∀ (pieces : List (List Char)) (acc : List Char),
      assembleReplace pat rep acc pieces = joinWith rep pieces := by
  intro pieces
  induction pieces with
  | nil => intro acc; rfl
  | cons p ps ih =>
    intro acc
    cases ps with
    | nil => rfl
    | cons q ps2 =>
      show p ++ getSubstitution pat (acc ++ p) (joinWith pat (q :: ps2)) rep ++
          assembleReplace pat rep (acc ++ p ++ pat) (q :: ps2) =
        joinWith rep (p :: q :: ps2)
      rw [getSubstitution_no_dollar _ _ _ rep hd, ih (acc ++ p ++ pat)]
      simp [joinWith]

/-- the specification-level description of global placeholder substitution:
the subject splits into pattern-free pieces separated by occurrences of the
pattern, and the output is the same pieces separated by the replacement.
This definition follows the spec words, for comparison with `jsReplaceAll`. -/
def SubstitutesEveryOccurrence (pat rep s sOut : List Char) : Prop :=
  ∃ pieces : List (List Char), pieces ≠ [] ∧ s = joinWith pat pieces ∧
    sOut = joinWith rep pieces ∧ ∀ q ∈ pieces, containsSub pat q = false

/-- verbatim global substitution holds for replacement values without `$`
(otherwise GetSubstitution rewrites the inserted text). -/
theorem jsReplaceAll_substitutes (pat rep s : String) (hp : pat.data ≠ [])
    (hd : noDollar rep.data = true) :
    SubstitutesEveryOccurrence pat.data rep.data s.data (jsReplaceAll pat rep s).data := by
  refine ⟨scanSplit pat.data s.data, scanSplit_ne_nil _ _, ?_, ?_, ?_⟩
  · rw [scanSplit_join]
  · show (String.mk (assembleReplace pat.data rep.data [] (scanSplit pat.data s.data))).data = _
    rw [assembleReplace_no_dollar pat.data rep.data hd]
  · exact scanSplit_pieces_free pat.data hp s.data

/- ### Data model (shared/src/types.ts, ai/geminiAgent.ts) -/

inductive TestAction where
  | navigate | click | fill | select | wait | assert | screenshot | scroll | hover | keyboard
  deriving DecidableEq, Repr

inductive AssertKind where
  | text | url | title | element | count
  deriving DecidableEq, Repr

/-- `expected: string | number`; JS numbers are modelled as integers (the
values arrive from JSON-decoded generator output and are compared with an
element count / parsed with `parseInt`). -/
inductive ExpectedVal where
  | s (v : String)
  | n (v : Int)
  deriving DecidableEq, Repr

/-- `actual?: string | number` of the shared `Assertion` interface. -/
inductive ActualVal where
  | s (v : String)
  | n (v : Int)
  deriving DecidableEq, Repr

/-- the shared `Assertion` interface: `type`, `expected`, and optional
`actual`/`passed` (present so that we can prove the evaluator never uses a
supplied `passed`). -/
structure AssertionInput where
  type : AssertKind
  expected : ExpectedVal
  actual : Option ActualVal
  passed : Option Bool
  deriving DecidableEq, Repr

/-- `StructuredStep` of `ai/geminiAgent.ts`. -/
structure StructuredStep where
  action : TestAction
  target : Option String
  value : Option String
  assertion : Option AssertionInput
  description : String
  deriving DecidableEq, Repr

/- ### Lifecycle event stream (executor/testExecutor.ts + queue/queue.ts)

Step events carry the step index (`step_N` ids in the source); failure
events carry the error message.  The browser itself is abstracted into an
oracle `RunEnv`: the outcome of executing step `i` against the live page,
and the value of the shared cancellation flag as read at the loop boundary
before step `i`. -/

inductive Event where
  | test_started
  | log (msg : String)
  | step_started (i : Nat)
  | step_completed (i : Nat)
  | step_failed (i : Nat) (err : String)
  | screenshot (i : Nat)
  | test_completed
  | test_failed (err : String)
  | error (msg : String)
  deriving DecidableEq, Repr

inductive StepOutcome where
  | ok
  | err (msg : String)
  deriving DecidableEq, Repr

structure RunEnv where
  outcome : Nat → StepOutcome
  cancelFlag : Nat → Bool
  cancelledBeforeLaunch : Bool

def msgCancelled : String := "Test execution was cancelled"

def strCancelledSub : String := "cancelled"

def msgCancelLog : String := "Test execution cancelled by user"

def msgAllCompleted : String := "All test steps completed successfully"

def msgLaunching : String := "Launching browser..."

def msgNavigating : String := "Navigating to url..."

def msgInspecting : String := "Inspecting page elements..."

def msgGenerating : String := "Generating optimized test steps from AI..."

def msgGenerated : String := "Generated test steps based on page analysis"

/-- the step loop of `executeTest` (testExecutor.ts:532-618): before each
step the cancellation flag is read; a set flag aborts with the cancellation
error; otherwise the step runs, a success emits `screenshot` then
`step_completed`, a failure emits `step_failed` then `screenshot` and
rethrows the step error; after the last step a success log is emitted. -/
def runLoop (env : RunEnv) : Nat → List StructuredStep → List Event × Option String
  | _, [] => ([Event.log msgAllCompleted], none)
  | i, _ :: rest =>
    if env.cancelFlag i then
      ([Event.log msgCancelLog], some msgCancelled)
    else
      match env.outcome i with
      | StepOutcome.ok =>
        let r := runLoop env (i + 1) rest
        (Event.step_started i :: Event.screenshot i :: Event.step_completed i :: r.1, r.2)
      | StepOutcome.err m =>
        ([Event.step_started i, Event.step_failed i m, Event.screenshot i], some m)

def preLogs : List Event :=
  [Event.log msgLaunching, Event.log msgNavigating, Event.log msgInspecting,
   Event.log msgGenerating, Event.log msgGenerated]

/-- `executeTest` (testExecutor.ts:416-653): launch logs, the step loop, and
the catch block, which reports a thrown error whose message contains
"cancelled" as a `test_failed` event with the fixed cancellation message and
any other error as a generic `error` event, and rethrows either way. -/
def executeTest (env : RunEnv) (steps : List StructuredStep) : List Event × Option String :=
  if env.cancelledBeforeLaunch then
    ([Event.log msgLaunching, Event.test_failed msgCancelled], some msgCancelled)
  else
    let r := runLoop env 0 steps
    match r.2 with
    | none => (preLogs ++ r.1, none)
    | some m =>
      (preLogs ++ r.1 ++
        [if strIncludes m strCancelledSub then Event.test_failed msgCancelled
         else Event.error m], some m)

/-- the queue worker (queue/queue.ts:17-60): broadcasts `test_started`, runs
`executeTest`, then broadcasts `test_completed` on normal return and
`test_failed` with the thrown message otherwise. -/
def runJob (env : RunEnv) (steps : List StructuredStep) : List Event :=
  let r := executeTest env steps
  Event.test_started ::
    (r.1 ++ (match r.2 with
      | none => [Event.test_completed]
      | some m => [Event.test_failed m]))

/- ### Event-order vocabulary -/

def firstPos (e : Event) : List Event → Option Nat
  | [] => none
  | x :: xs => if x = e then some 0 else (firstPos e xs).map (· + 1)

/-- `a` is emitted strictly before `b` (both present, first occurrence of
`a` earlier). -/
def emittedBefore (tr : List Event) (a b : Event) : Bool :=
  match firstPos a tr, firstPos b tr with
  | some i, some j => decide (i < j)
  | _, _ => false

/-- `a` is immediately followed by `b` somewhere in the trace. -/
def adjacentIn (a b : Event) (tr : List Event) : Prop :=
  ∃ u v, tr = u ++ a :: b :: v

theorem adjacentIn_append_left (a b : Event) (pre tr : List Event)
    (h : adjacentIn a b tr) : adjacentIn a b (pre ++ tr) := by
  obtain ⟨u, v, h⟩ := h
  exact ⟨pre ++ u, v, by rw [h, List.append_assoc]⟩

theorem adjacentIn_append_right (a b : Event) (tr post : List Event)
    (h : adjacentIn a b tr) : adjacentIn a b (tr ++ post) := by
  obtain ⟨u, v, h⟩ := h
  exact ⟨u, v ++ post, by rw [h]; simp⟩

theorem adjacentIn_cons (a b x : Event) (tr : List Event)
    (h : adjacentIn a b tr) : adjacentIn a b (x :: tr) := by
  obtain ⟨u, v, h⟩ := h
  exact ⟨x :: u, v, by rw [h]; rfl⟩

/- ### Structural lemmas about the step loop -/

theorem runLoop_cons_cancel (env : RunEnv) (k : Nat) (s : StructuredStep)
    (rest : List StructuredStep) (hc : env.cancelFlag k = true) :
    runLoop env k (s :: rest) = ([Event.log msgCancelLog], some msgCancelled) := by
  simp [runLoop, hc]

theorem runLoop_cons_ok (env : RunEnv) (k : Nat) (s : StructuredStep)
    (rest : List StructuredStep) (hc : env.cancelFlag k = false)
    (ho : env.outcome k = StepOutcome.ok) :
    runLoop env k (s :: rest) =
      (Event.step_started k :: Event.screenshot k :: Event.step_completed k ::
        (runLoop env (k + 1) rest).1, (runLoop env (k + 1) rest).2) := by
  simp [runLoop, hc, ho]

theorem runLoop_cons_err (env : RunEnv) (k : Nat) (s : StructuredStep)
    (rest : List StructuredStep) (m : String) (hc : env.cancelFlag k = false)
    (ho : env.outcome k = StepOutcome.err m) :
    runLoop env k (s :: rest) =
      ([Event.step_started k, Event.step_failed k m, Event.screenshot k], some m) := by
  simp [runLoop, hc, ho]

theorem runLoop_started_ge (env : RunEnv) :
    ∀ (ss : List StructuredStep) (k j : Nat),
      Event.step_started j ∈ (runLoop env k ss).1 → k ≤ j := by
  intro ss
  induction ss with
  | nil =>
    intro k j h
    simp [runLoop] at h
  | cons s rest ih =>
    intro k j h
    cases hc : env.cancelFlag k with
    | true =>
      rw [runLoop_cons_cancel env k s rest hc] at h
      simp at h
    | false =>
      cases ho : env.outcome k with
      | ok =>
        rw [runLoop_cons_ok env k s rest hc ho] at h
        simp only [List.mem_cons] at h
        rcases h with h | h | h | h
        · simp at h; omega
        · simp at h
        · simp at h
        · exact Nat.le_of_succ_le (ih (k + 1) j h)
      | err m0 =>
        rw [runLoop_cons_err env k s rest m0 hc ho] at h
        simp at h
        omega

theorem runLoop_failed_ge (env : RunEnv) :
    ∀ (ss : List StructuredStep) (k i : Nat) (m : String),
      Event.step_failed i m ∈ (runLoop env k ss).1 → k ≤ i := by
  intro ss
  induction ss with
  | nil =>
    intro k i m h
    simp [runLoop] at h
  | cons s rest ih =>
    intro k i m h
    cases hc : env.cancelFlag k with
    | true =>
      rw [runLoop_cons_cancel env k s rest hc] at h
      simp at h
    | false =>
      cases ho : env.outcome k with
      | ok =>
        rw [runLoop_cons_ok env k s rest hc ho] at h
        simp only [List.mem_cons] at h
        rcases h with h | h | h | h
        · simp at h
        · simp at h
        · simp at h
        · exact Nat.le_of_succ_le (ih (k + 1) i m h)
      | err m0 =>
        rw [runLoop_cons_err env k s rest m0 hc ho] at h
        simp at h
        omega

theorem runLoop_no_terminal (env : RunEnv) :
    ∀ (ss : List StructuredStep) (k : Nat),
      Event.test_completed ∉ (runLoop env k ss).1 ∧
      ∀ m, Event.test_failed m ∉ (runLoop env k ss).1 := by
  intro ss
  induction ss with
  | nil =>
    intro k
    constructor
    · simp [runLoop]
    · intro m; simp [runLoop]
  | cons s rest ih =>
    intro k
    cases hc : env.cancelFlag k with
    | true =>
      rw [runLoop_cons_cancel env k s rest hc]
      constructor
      · simp
      · intro m; simp
    | false =>
      cases ho : env.outcome k with
      | ok =>
        rw [runLoop_cons_ok env k s rest hc ho]
        constructor
        · simp only [List.mem_cons]
          intro h
          rcases h with h | h | h | h
          · simp at h
          · simp at h
          · simp at h
          · exact (ih (k + 1)).1 h
        · intro m
          simp only [List.mem_cons]
          intro h
          rcases h with h | h | h | h
          · simp at h
          · simp at h
          · simp at h
          · exact (ih (k + 1)).2 m h
      | err m0 =>
        rw [runLoop_cons_err env k s rest m0 hc ho]
        constructor
        · simp
        · intro m; simp

/-- after a `step_failed i m`, the loop result is the thrown message `m` and
no later step ever starts. -/
theorem runLoop_failed_stops (env : RunEnv) :
    ∀ (ss : List StructuredStep) (k i : Nat) (m : String),
      Event.step_failed i m ∈ (runLoop env k ss).1 →
      (runLoop env k ss).2 = some m ∧
      ∀ j, i < j → Event.step_started j ∉ (runLoop env k ss).1 := by
  intro ss
  induction ss with
  | nil =>
    intro k i m h
    simp [runLoop] at h
  | cons s rest ih =>
    intro k i m h
    cases hc : env.cancelFlag k with
    | true =>
      rw [runLoop_cons_cancel env k s rest hc] at h
      simp at h
    | false =>
      cases ho : env.outcome k with
      | ok =>
        rw [runLoop_cons_ok env k s rest hc ho] at h ⊢
        simp only [List.mem_cons] at h
        have hmem : Event.step_failed i m ∈ (runLoop env (k + 1) rest).1 := by
          rcases h with h | h | h | h
          · simp at h
          · simp at h
          · simp at h
          · exact h
        have hki : k + 1 ≤ i := runLoop_failed_ge env rest (k + 1) i m hmem
        obtain ⟨hres, hnost⟩ := ih (k + 1) i m hmem
        refine ⟨hres, ?_⟩
        intro j hj
        simp only [List.mem_cons]
        intro hmem2
        rcases hmem2 with h2 | h2 | h2 | h2
        · simp at h2; omega
        · simp at h2
        · simp at h2
        · exact hnost j hj h2
      | err m0 =>
        rw [runLoop_cons_err env k s rest m0 hc ho] at h ⊢
        simp only [List.mem_cons] at h
        have him : i = k ∧ m = m0 := by
          rcases h with h | h | h | h
          · simp at h
          · simp at h; exact h
          · simp at h
          · simp at h
        obtain ⟨hik, hmm⟩ := him
        subst hik
        subst hmm
        refine ⟨rfl, ?_⟩
        intro j hj
        simp only [List.mem_cons]
        intro hmem2
        rcases hmem2 with h2 | h2 | h2 | h2
        · simp at h2; omega
        · simp at h2
        · simp at h2
        · simp at h2

/-- the per-step evidence ordering of the loop: `screenshot i` immediately
precedes `step_completed i`, and `step_failed i m` immediately precedes
`screenshot i`. -/
theorem runLoop_evidence_adjacent (env : RunEnv) (i : Nat) (m : String) :
    ∀ (ss : List StructuredStep) (k : Nat),
      (Event.step_completed i ∈ (runLoop env k ss).1 →
        adjacentIn (Event.screenshot i) (Event.step_completed i) (runLoop env k ss).1) ∧
      (Event.step_failed i m ∈ (runLoop env k ss).1 →
        adjacentIn (Event.step_failed i m) (Event.screenshot i) (runLoop env k ss).1) := by
  intro ss
  induction ss with
  | nil =>
    intro k
    constructor
    · intro h; simp [runLoop] at h
    · intro h; simp [runLoop] at h
  | cons s rest ih =>
    intro k
    cases hc : env.cancelFlag k with
    | true =>
      rw [runLoop_cons_cancel env k s rest hc]
      constructor
      · intro h; simp at h
      · intro h; simp at h
    | false =>
      cases ho : env.outcome k with
      | ok =>
        rw [runLoop_cons_ok env k s rest hc ho]
        constructor
        · intro h
          simp only [List.mem_cons] at h
          rcases h with h | h | h | h
          · simp at h
          · simp at h
          · simp at h
            subst h
            exact ⟨[Event.step_started i], (runLoop env (i + 1) rest).1, rfl⟩
          · exact adjacentIn_cons _ _ _ _ (adjacentIn_cons _ _ _ _
              (adjacentIn_cons _ _ _ _ (((ih (k + 1)).1) h)))
        · intro h
          simp only [List.mem_cons] at h
          rcases h with h | h | h | h
          · simp at h
          · simp at h
          · simp at h
          · exact adjacentIn_cons _ _ _ _ (adjacentIn_cons _ _ _ _
              (adjacentIn_cons _ _ _ _ (((ih (k + 1)).2) h)))
      | err m0 =>
        rw [runLoop_cons_err env k s rest m0 hc ho]
        constructor
        · intro h
          simp at h
        · intro h
          simp only [List.mem_cons] at h
          have him : i = k ∧ m = m0 := by
            rcases h with h | h | h | h
            · simp at h
            · simp at h; exact h
            · simp at h
            · simp at h
          obtain ⟨hik, hmm⟩ := him
          subst hik
          subst hmm
          exact ⟨[Event.step_started i], [], rfl⟩

/- ### Closed forms of the whole run -/

theorem runJob_precancel (env : RunEnv) (steps : List StructuredStep)
    (h0 : env.cancelledBeforeLaunch = true) :
    runJob env steps =
      [Event.test_started, Event.log msgLaunching, Event.test_failed msgCancelled,
       Event.test_failed msgCancelled] := by
  simp [runJob, executeTest, h0]

theorem runJob_none (env : RunEnv) (steps : List StructuredStep)
    (h0 : env.cancelledBeforeLaunch = false)
    (hr : (runLoop env 0 steps).2 = none) :
    runJob env steps =
      Event.test_started ::
        (preLogs ++ (runLoop env 0 steps).1 ++ [Event.test_completed]) := by
  simp [runJob, executeTest, h0, hr]

theorem runJob_some (env : RunEnv) (steps : List StructuredStep) (m : String)
    (h0 : env.cancelledBeforeLaunch = false)
    (hr : (runLoop env 0 steps).2 = some m) :
    runJob env steps =
      Event.test_started ::
        (preLogs ++ (runLoop env 0 steps).1 ++
          [if strIncludes m strCancelledSub then Event.test_failed msgCancelled
           else Event.error m] ++ [Event.test_failed m]) := by
  simp [runJob, executeTest, h0, hr]

/- ### Concrete runs used as counterexamples and witnesses -/

def stepClickX : StructuredStep :=
  { action := TestAction.click, target := some "X", value := none,
    assertion := none, description := "click X" }

/-- a run whose first step fails with message "boom". -/
def envFail : RunEnv :=
  { outcome := fun _ => StepOutcome.err "boom"
  , cancelFlag := fun _ => false
  , cancelledBeforeLaunch := false }

def trFail : List Event := runJob envFail [stepClickX]

/-- a run where every step succeeds and nothing is cancelled. -/
def envOk : RunEnv :=
  { outcome := fun _ => StepOutcome.ok
  , cancelFlag := fun _ => false
  , cancelledBeforeLaunch := false }

/-- a run where every step succeeds and the cancellation flag becomes set
during step 0 (so it reads `false` at boundary 0 and `true` from boundary 1
on). -/
def envCancelAfter0 : RunEnv :=
  { outcome := fun _ => StepOutcome.ok
  , cancelFlag := fun j => decide (1 ≤ j)
  , cancelledBeforeLaunch := false }

/- ### Claim C1 -/

/-- C1 counterexample: the claim "the `screenshot` event for step i is
emitted strictly before that step's terminal event: ... on failure before
`step_failed`" is false on the failure path.  In the concrete run whose
single step 0 fails with "boom", both events are emitted, but `step_failed`
comes first and `screenshot` only after it (testExecutor.ts:602-614 emits
`step_failed`, then captures and emits the screenshot). -/
theorem c1_screenshot_order_counterexample :
    Event.screenshot 0 ∈ trFail ∧
    Event.step_failed 0 "boom" ∈ trFail ∧
    emittedBefore trFail (Event.screenshot 0) (Event.step_failed 0 "boom") = false ∧
    emittedBefore trFail (Event.step_failed 0 "boom") (Event.screenshot 0) = true := by
  decide

/-- C1 amended: on success the `screenshot` event for step i immediately
precedes (hence comes strictly before) that step's `step_completed`; on
failure the order is inverted: `step_failed` is emitted first and the
`screenshot` event immediately follows it. -/
theorem c1_screenshot_order_amended (env : RunEnv) (steps : List StructuredStep)
    (i : Nat) (m : String) :
    (Event.step_completed i ∈ runJob env steps →
      adjacentIn (Event.screenshot i) (Event.step_completed i) (runJob env steps)) ∧
    (Event.step_failed i m ∈ runJob env steps →
      adjacentIn (Event.step_failed i m) (Event.screenshot i) (runJob env steps)) := by
  cases h0 : env.cancelledBeforeLaunch with
  | true =>
    rw [runJob_precancel env steps h0]
    constructor
    · intro h; simp at h
    · intro h; simp at h
  | false =>
    cases hr : (runLoop env 0 steps).2 with
    | none =>
      rw [runJob_none env steps h0 hr]
      constructor
      · intro h
        have hmem : Event.step_completed i ∈ (runLoop env 0 steps).1 := by
          simp [preLogs] at h
          exact h
        exact adjacentIn_cons _ _ _ _ (adjacentIn_append_right _ _ _ _
          (adjacentIn_append_left _ _ _ _
            ((runLoop_evidence_adjacent env i m steps 0).1 hmem)))
      · intro h
        have hmem : Event.step_failed i m ∈ (runLoop env 0 steps).1 := by
          simp [preLogs] at h
          exact h
        exact adjacentIn_cons _ _ _ _ (adjacentIn_append_right _ _ _ _
          (adjacentIn_append_left _ _ _ _
            ((runLoop_evidence_adjacent env i m steps 0).2 hmem)))
    | some m0 =>
      rw [runJob_some env steps m0 h0 hr]
      cases hcs : strIncludes m0 strCancelledSub with
      | true =>
        constructor
        · intro h
          have hmem : Event.step_completed i ∈ (runLoop env 0 steps).1 := by
            simp [preLogs] at h
            exact h
          exact adjacentIn_cons _ _ _ _ (adjacentIn_append_right _ _ _ _
            (adjacentIn_append_right _ _ _ _ (adjacentIn_append_left _ _ _ _
              ((runLoop_evidence_adjacent env i m steps 0).1 hmem))))
        · intro h
          have hmem : Event.step_failed i m ∈ (runLoop env 0 steps).1 := by
            simp [preLogs] at h
            exact h
          exact adjacentIn_cons _ _ _ _ (adjacentIn_append_right _ _ _ _
            (adjacentIn_append_right _ _ _ _ (adjacentIn_append_left _ _ _ _
              ((runLoop_evidence_adjacent env i m steps 0).2 hmem))))
      | false =>
        constructor
        · intro h
          have hmem : Event.step_completed i ∈ (runLoop env 0 steps).1 := by
            simp [preLogs] at h
            exact h
          exact adjacentIn_cons _ _ _ _ (adjacentIn_append_right _ _ _ _
            (adjacentIn_append_right _ _ _ _ (adjacentIn_append_left _ _ _ _
              ((runLoop_evidence_adjacent env i m steps 0).1 hmem))))
        · intro h
          have hmem : Event.step_failed i m ∈ (runLoop env 0 steps).1 := by
            simp [preLogs] at h
            exact h
          exact adjacentIn_cons _ _ _ _ (adjacentIn_append_right _ _ _ _
            (adjacentIn_append_right _ _ _ _ (adjacentIn_append_left _ _ _ _
              ((runLoop_evidence_adjacent env i m steps 0).2 hmem))))

/-- C1 amended, witness: concrete instances of both directions. -/
theorem c1_screenshot_order_amended_witness :
    adjacentIn (Event.screenshot 0) (Event.step_completed 0) (runJob envOk [stepClickX]) ∧
    adjacentIn (Event.step_failed 0 "boom") (Event.screenshot 0) (runJob envFail [stepClickX]) :=
  ⟨(c1_screenshot_order_amended envOk [stepClickX] 0 "boom").1 (by decide),
   (c1_screenshot_order_amended envFail [stepClickX] 0 "boom").2 (by decide)⟩

/- ### Claim C2 -/

/-- C2: once a step fails, no later step is started, `test_completed` is
never emitted, and the run ends with a `test_failed` terminal event carrying
the step error (the loop rethrows on `step_failed`, `executeTest` reports
and rethrows, and the queue worker broadcasts `test_failed` last). -/
theorem c2_fail_fast (env : RunEnv) (steps : List StructuredStep) (i : Nat) (m : String)
    (h : Event.step_failed i m ∈ runJob env steps) :
    (∀ j, i < j → Event.step_started j ∉ runJob env steps) ∧
    Event.test_completed ∉ runJob env steps ∧
    (runJob env steps).getLast? = some (Event.test_failed m) := by
  cases h0 : env.cancelledBeforeLaunch with
  | true =>
    rw [runJob_precancel env steps h0] at h
    simp at h
  | false =>
    cases hr : (runLoop env 0 steps).2 with
    | none =>
      rw [runJob_none env steps h0 hr] at h
      have hmem : Event.step_failed i m ∈ (runLoop env 0 steps).1 := by
        simp [preLogs] at h
        exact h
      have hres := (runLoop_failed_stops env steps 0 i m hmem).1
      rw [hr] at hres
      simp at hres
    | some m0 =>
      rw [runJob_some env steps m0 h0 hr] at h ⊢
      cases hcs : strIncludes m0 strCancelledSub with
      | true =>
        have hmem : Event.step_failed i m ∈ (runLoop env 0 steps).1 := by
          simp [preLogs, hcs] at h
          exact h
        obtain ⟨hres, hnost⟩ := runLoop_failed_stops env steps 0 i m hmem
        rw [hr] at hres
        have hm0 : m0 = m := by
          simpa using hres
        subst hm0
        refine ⟨?_, ?_, ?_⟩
        · intro j hj hmem2
          simp [preLogs] at hmem2
          exact hnost j hj hmem2
        · intro hmem2
          simp [preLogs] at hmem2
          exact (runLoop_no_terminal env steps 0).1 hmem2
        · rw [← List.cons_append, List.getLast?_concat]
      | false =>
        have hmem : Event.step_failed i m ∈ (runLoop env 0 steps).1 := by
          simp [preLogs, hcs] at h
          exact h
        obtain ⟨hres, hnost⟩ := runLoop_failed_stops env steps 0 i m hmem
        rw [hr] at hres
        have hm0 : m0 = m := by
          simpa using hres
        subst hm0
        refine ⟨?_, ?_, ?_⟩
        · intro j hj hmem2
          simp [preLogs] at hmem2
          exact hnost j hj hmem2
        · intro hmem2
          simp [preLogs] at hmem2
          exact (runLoop_no_terminal env steps 0).1 hmem2
        · rw [← List.cons_append, List.getLast?_concat]

def stepsTwo : List StructuredStep := [stepClickX, stepClickX]

/-- C2 witness: concrete failing run, instantiated at step 0. -/
theorem c2_fail_fast_witness :
    (∀ j, 0 < j → Event.step_started j ∉ runJob envFail stepsTwo) ∧
    Event.test_completed ∉ runJob envFail stepsTwo ∧
    (runJob envFail stepsTwo).getLast? = some (Event.test_failed "boom") :=
  c2_fail_fast envFail stepsTwo 0 "boom" (by decide)

/- ### Claim C3 -/

/-- if the loop is running at boundary `k`, every flag read up to `i` is
false, every outcome up to `i` succeeds, and the flag reads true at boundary
`i + 1` (which exists because more steps remain), then the loop completes
step `i`, starts nothing after it, and aborts with the cancellation error. -/
theorem runLoop_cancel_boundary (env : RunEnv) (i : Nat) :
    ∀ (ss : List StructuredStep) (k : Nat),
      k ≤ i + 1 →
      (∀ j, k ≤ j → j ≤ i → env.cancelFlag j = false) →
      env.cancelFlag (i + 1) = true →
      (∀ j, k ≤ j → j ≤ i → env.outcome j = StepOutcome.ok) →
      i + 1 - k < ss.length →
      (runLoop env k ss).2 = some msgCancelled ∧
      (k ≤ i → Event.step_completed i ∈ (runLoop env k ss).1) ∧
      (∀ j, i < j → Event.step_started j ∉ (runLoop env k ss).1) := by
  intro ss
  induction ss with
  | nil =>
    intro k hk hlo hhi hok hlen
    simp at hlen
  | cons s rest ih =>
    intro k hk hlo hhi hok hlen
    by_cases hki : k = i + 1
    · subst hki
      rw [runLoop_cons_cancel env (i + 1) s rest hhi]
      refine ⟨rfl, ?_, ?_⟩
      · intro hle
        omega
      · intro j hj
        simp
    · have hkle : k ≤ i := by omega
      have hfk : env.cancelFlag k = false := hlo k (le_refl k) hkle
      have hook : env.outcome k = StepOutcome.ok := hok k (le_refl k) hkle
      rw [runLoop_cons_ok env k s rest hfk hook]
      have hlen2 : i + 1 - (k + 1) < rest.length := by
        simp at hlen
        omega
      obtain ⟨hres, hcomp, hnost⟩ := ih (k + 1) (by omega)
        (fun j hj1 hj2 => hlo j (by omega) hj2) hhi
        (fun j hj1 hj2 => hok j (by omega) hj2) hlen2
      refine ⟨hres, ?_, ?_⟩
      · intro _
        by_cases hik : k = i
        · subst hik
          simp
        · have hlt : k + 1 ≤ i := by omega
          have hin := hcomp hlt
          simp [hin]
      · intro j hj
        simp only [List.mem_cons]
        intro hmem
        rcases hmem with h2 | h2 | h2 | h2
        · simp at h2; omega
        · simp at h2
        · simp at h2
        · exact hnost j hj h2

/-- C3: the cancellation flag is observed only at step boundaries: when the
flag becomes set during step i (reads false at every boundary up to i, true
at boundary i+1) and a further step remains, step i still completes
(`step_completed i` is emitted), no later `step_started` is ever emitted,
`executeTest` reports the run as `test_failed` with the fixed
cancellation-specific message, and that `test_failed` is the last event —
no silent stop and no distinct wire event type. -/
theorem c3_cancellation_boundary (env : RunEnv) (steps : List StructuredStep) (i : Nat)
    (h0 : env.cancelledBeforeLaunch = false)
    (hlo : ∀ j, j ≤ i → env.cancelFlag j = false)
    (hhi : env.cancelFlag (i + 1) = true)
    (hok : ∀ j, j ≤ i → env.outcome j = StepOutcome.ok)
    (hlen : i + 1 < steps.length) :
    Event.step_completed i ∈ runJob env steps ∧
    (∀ j, i < j → Event.step_started j ∉ runJob env steps) ∧
    Event.test_failed msgCancelled ∈ runJob env steps ∧
    Event.test_completed ∉ runJob env steps ∧
    (runJob env steps).getLast? = some (Event.test_failed msgCancelled) := by
  obtain ⟨hres, hcomp, hnost⟩ := runLoop_cancel_boundary env i steps 0 (by omega)
    (fun j _ hj2 => hlo j hj2) hhi (fun j _ hj2 => hok j hj2) (by omega)
  have hcompi : Event.step_completed i ∈ (runLoop env 0 steps).1 := hcomp (by omega)
  have hcanc : strIncludes msgCancelled strCancelledSub = true := by decide
  rw [runJob_some env steps msgCancelled h0 hres]
  refine ⟨?_, ?_, ?_, ?_, ?_⟩
  · simp [preLogs, hcompi]
  · intro j hj hmem
    simp [preLogs, hcanc] at hmem
    exact hnost j hj hmem
  · simp
  · intro hmem
    simp [preLogs, hcanc] at hmem
    exact (runLoop_no_terminal env steps 0).1 hmem
  · rw [← List.cons_append, List.getLast?_concat]

def stepsThree : List StructuredStep := [stepClickX, stepClickX, stepClickX]

/-- C3 witness: three successful steps, flag set during step 0; the boundary
check before step 1 aborts the run. -/
theorem c3_cancellation_boundary_witness :
    Event.step_completed 0 ∈ runJob envCancelAfter0 stepsThree ∧
    (∀ j, 0 < j → Event.step_started j ∉ runJob envCancelAfter0 stepsThree) ∧
    Event.test_failed msgCancelled ∈ runJob envCancelAfter0 stepsThree ∧
    Event.test_completed ∉ runJob envCancelAfter0 stepsThree ∧
    (runJob envCancelAfter0 stepsThree).getLast? = some (Event.test_failed msgCancelled) :=
  c3_cancellation_boundary envCancelAfter0 stepsThree 0 rfl
    (fun j hj => by
      have hj0 : j = 0 := Nat.le_zero.mp hj
      subst hj0
      rfl)
    rfl
    (fun j hj => rfl)
    (by decide)

/- ### Assertion evaluator (performAssertion, testExecutor.ts:1255-1351) -/

/-- the page state an assertion can observe: body text (null when absent),
current url, title, and per-selector visibility / match count. -/
structure PageObs where
  bodyText : Option String
  url : String
  title : String
  visible : String → Bool
  count : String → Nat

/-- JS `String(expected)`. -/
def jsToString : ExpectedVal → String
  | ExpectedVal.s v => v
  | ExpectedVal.n k => intToDecimal k

/-- `typeof expected === "number" ? expected : Number.parseInt(String(expected), 10)`
(`none` models `NaN`). -/
def countExpected : ExpectedVal → Option Int
  | ExpectedVal.n k => some k
  | ExpectedVal.s s => jsParseInt s

/-- the `testStep.assertion` record written by `performAssertion`:
`{ ...assertion, actual, passed }` — the spread keeps `type`/`expected` and
the explicit fields overwrite any supplied `actual`/`passed`. -/
structure AssertionRecord where
  type : AssertKind
  expected : ExpectedVal
  actual : Option ActualVal
  passed : Option Bool
  deriving DecidableEq, Repr

def strVisible : String := "visible"

def strNotVisible : String := "not visible"

def optIntToDecimal : Option Int → String
  | some k => intToDecimal k
  | none => "NaN"

def msgTextNotFound (e : String) : String :=
  "Expected text \x22" ++ e ++ "\x22 not found"

def msgUrlNotContain (e u : String) : String :=
  "Expected URL to contain \x22" ++ e ++ "\x22, got \x22" ++ u ++ "\x22"

def msgTitleNotContain (e t : String) : String :=
  "Expected title to contain \x22" ++ e ++ "\x22, got \x22" ++ t ++ "\x22"

def msgElementNotVisible (e : String) : String :=
  "Expected element \x22" ++ e ++ "\x22 not found or not visible"

def msgCountMismatch (k : Option Int) (n : Nat) : String :=
  "Expected " ++ optIntToDecimal k ++ " elements, found " ++ intToDecimal (n : Int)

/-- `performAssertion`: evaluates one assertion against the observed page
state, stores the record (always, before any throw), and throws exactly on
a failed check; the returned `Option String` is the thrown error message. -/
def performAssertion (a : AssertionInput) (obs : PageObs) :
    AssertionRecord × Option String :=
  match a.type with
  | AssertKind.text =>
    let textContent := obs.bodyText
    let expectedText := jsToString a.expected
    let found := match textContent with
      | some t => strIncludes t expectedText
      | none => false
    ({ type := a.type, expected := a.expected,
       actual := textContent.map ActualVal.s, passed := some found },
     if found then none else some (msgTextNotFound expectedText))
  | AssertKind.url =>
    let url := obs.url
    let expectedUrl := jsToString a.expected
    let passed := strIncludes url expectedUrl
    ({ type := a.type, expected := a.expected,
       actual := some (ActualVal.s url), passed := some passed },
     if passed then none else some (msgUrlNotContain expectedUrl url))
  | AssertKind.title =>
    let title := obs.title
    let expectedTitle := jsToString a.expected
    let passed := strIncludes title expectedTitle
    ({ type := a.type, expected := a.expected,
       actual := some (ActualVal.s title), passed := some passed },
     if passed then none else some (msgTitleNotContain expectedTitle title))
  | AssertKind.element =>
    let expectedSelector := jsToString a.expected
    let isVisible := obs.visible expectedSelector
    ({ type := a.type, expected := a.expected,
       actual := some (ActualVal.s (if isVisible then strVisible else strNotVisible)),
       passed := some isVisible },
     if isVisible then none else some (msgElementNotVisible expectedSelector))
  | AssertKind.count =>
    let expectedSelector := jsToString a.expected
    let expectedCount := countExpected a.expected
    let count := obs.count expectedSelector
    let passed := match expectedCount with
      | some k => decide ((count : Int) = k)
      | none => false
    ({ type := a.type, expected := a.expected,
       actual := some (ActualVal.n (count : Int)), passed := some passed },
     if passed then none else some (msgCountMismatch expectedCount count))

/-- the verdict as a function of the page observation and the spec fields
only (no access to any supplied `passed`/`actual`). -/
def computePassed (t : AssertKind) (e : ExpectedVal) (obs : PageObs) : Bool :=
  match t with
  | AssertKind.text =>
    match obs.bodyText with
    | some b => strIncludes b (jsToString e)
    | none => false
  | AssertKind.url => strIncludes obs.url (jsToString e)
  | AssertKind.title => strIncludes obs.title (jsToString e)
  | AssertKind.element => obs.visible (jsToString e)
  | AssertKind.count =>
    match countExpected e with
    | some k => decide ((obs.count (jsToString e) : Int) = k)
    | none => false

/-- the recorded `actual` as a function of the observation only. -/
def observedActual (t : AssertKind) (e : ExpectedVal) (obs : PageObs) : Option ActualVal :=
  match t with
  | AssertKind.text => obs.bodyText.map ActualVal.s
  | AssertKind.url => some (ActualVal.s obs.url)
  | AssertKind.title => some (ActualVal.s obs.title)
  | AssertKind.element =>
    some (ActualVal.s (if obs.visible (jsToString e) then strVisible else strNotVisible))
  | AssertKind.count => some (ActualVal.n ((obs.count (jsToString e) : Int)))

/- ### Claims C4, C5, C10 -/

/-- C5: for every assertion spec of each of the five kinds, one evaluation
produces exactly one verdict: the recorded `passed` equals the predicate
computed from the page observation alone (any supplied `passed`/`actual`
fields are ignored), both `expected` and the observed `actual` are recorded,
the call returns normally iff `passed` is true and throws iff it is false,
and the result is a deterministic function of one observation (no retry). -/
theorem c5_one_evaluation_one_verdict (a : AssertionInput) (obs : PageObs) :
    (performAssertion a obs).1.type = a.type ∧
    (performAssertion a obs).1.expected = a.expected ∧
    (performAssertion a obs).1.actual = observedActual a.type a.expected obs ∧
    (performAssertion a obs).1.passed = some (computePassed a.type a.expected obs) ∧
    ((performAssertion a obs).2 = none ↔ computePassed a.type a.expected obs = true) ∧
    (∀ b c, performAssertion
        { type := a.type, expected := a.expected, actual := c, passed := b } obs =
      performAssertion a obs) := by
  cases a with
  | mk t e ac pa =>
    cases t with
    | text =>
      cases hb : obs.bodyText with
      | none => simp [performAssertion, computePassed, observedActual, hb]
      | some b =>
        cases hf : strIncludes b (jsToString e) <;>
          simp [performAssertion, computePassed, observedActual, hb, hf]
    | url =>
      cases hf : strIncludes obs.url (jsToString e) <;>
        simp [performAssertion, computePassed, observedActual, hf]
    | title =>
      cases hf : strIncludes obs.title (jsToString e) <;>
        simp [performAssertion, computePassed, observedActual, hf]
    | element =>
      cases hf : obs.visible (jsToString e) <;>
        simp [performAssertion, computePassed, observedActual, hf]
    | count =>
      cases hk : countExpected e with
      | none => simp [performAssertion, computePassed, observedActual, hk]
      | some k =>
        cases hd : decide ((obs.count (jsToString e) : Int) = k) <;>
          simp [performAssertion, computePassed, observedActual, hk, hd]

/-- C4: the count assertion with integer expected `k` records
`passed = (n = k)` where `n` is the number of elements matching the expected
locator (the string form of `k`), returns normally iff `n = k`, and any
off-by-one observation (`n = k + 1` or `n = k - 1`) throws an error. -/
theorem c4_count_off_by_one (obs : PageObs) (k : Int) :
    (performAssertion
        { type := AssertKind.count, expected := ExpectedVal.n k,
          actual := none, passed := none } obs).1.passed =
      some (decide ((obs.count (jsToString (ExpectedVal.n k)) : Int) = k)) ∧
    ((performAssertion
        { type := AssertKind.count, expected := ExpectedVal.n k,
          actual := none, passed := none } obs).2 = none ↔
      (obs.count (jsToString (ExpectedVal.n k)) : Int) = k) ∧
    (((obs.count (jsToString (ExpectedVal.n k)) : Int) = k + 1 ∨
      (obs.count (jsToString (ExpectedVal.n k)) : Int) = k - 1) →
      (performAssertion
        { type := AssertKind.count, expected := ExpectedVal.n k,
          actual := none, passed := none } obs).2 ≠ none) := by
  cases hd : decide ((obs.count (jsToString (ExpectedVal.n k)) : Int) = k) with
  | true =>
    have he : (obs.count (jsToString (ExpectedVal.n k)) : Int) = k := of_decide_eq_true hd
    refine ⟨?_, ?_, ?_⟩
    · simp [performAssertion, countExpected, hd]
    · simp [performAssertion, countExpected, hd, he]
    · intro hcase
      rcases hcase with hc | hc <;> omega
  | false =>
    have he : ¬((obs.count (jsToString (ExpectedVal.n k)) : Int) = k) := of_decide_eq_false hd
    refine ⟨?_, ?_, ?_⟩
    · simp [performAssertion, countExpected, hd]
    · simp [performAssertion, countExpected, hd, he]
    · intro _
      simp [performAssertion, countExpected, hd]

def obsThree : PageObs :=
  { bodyText := none, url := "", title := "", visible := fun _ => false,
    count := fun _ => 3 }

/-- C4 witness: observed count 3 against expected 2 (off by one) throws. -/
theorem c4_count_off_by_one_witness :
    (performAssertion
      { type := AssertKind.count, expected := ExpectedVal.n 2,
        actual := none, passed := none } obsThree).2 ≠ none :=
  (c4_count_off_by_one obsThree 2).2.2 (Or.inl (by decide))

/-- C10: in the count assertion the single `expected` field doubles as the
locator (its string form) and as the expected count (`parseInt` of that
very string): the recorded `actual` is the match count of the selector
`String(expected)`, the comparison target equals `parseInt` of that same
selector string, and the assertion passes exactly when the selector
string's leading characters parse to the observed element count. -/
theorem c10_count_selector_conflation (obs : PageObs) (e : ExpectedVal) :
    (performAssertion
        { type := AssertKind.count, expected := e,
          actual := none, passed := none } obs).1.actual =
      some (ActualVal.n ((obs.count (jsToString e) : Int))) ∧
    countExpected e = jsParseInt (jsToString e) ∧
    ((performAssertion
        { type := AssertKind.count, expected := e,
          actual := none, passed := none } obs).2 = none ↔
      jsParseInt (jsToString e) = some ((obs.count (jsToString e) : Int))) := by
  have hpe : countExpected e = jsParseInt (jsToString e) := by
    cases e with
    | s v => simp [countExpected, jsToString]
    | n k => simp [countExpected, jsToString, jsParseInt_intToDecimal]
  refine ⟨?_, hpe, ?_⟩
  · simp [performAssertion]
  · cases hk : countExpected e with
    | none =>
      rw [hk] at hpe
      simp [performAssertion, hk, ← hpe]
    | some k =>
      rw [hk] at hpe
      cases hd : decide ((obs.count (jsToString e) : Int) = k) with
      | true =>
        have he := of_decide_eq_true hd
        simp [performAssertion, hk, hd, ← hpe, he]
      | false =>
        have he := of_decide_eq_false hd
        constructor
        · intro hcon
          simp [performAssertion, hk, hd] at hcon
        · intro hcon
          rw [← hpe] at hcon
          simp at hcon
          exact absurd hcon.symm he

/- ### Execution registry (activeExecutions, testExecutor.ts:392-411, 644-652) -/

/-- the module-level `activeExecutions` map, reduced to the per-id
cancellation flag (the browser resources play no role in the claims). -/
def regLookup (reg : List (String × Bool)) (id : String) : Option Bool :=
  (reg.find? (fun p => p.1 == id)).map (fun p => p.2)

/-- `cancelTestExecution` (testExecutor.ts:405-411): set the flag when the
id is registered, otherwise do nothing; never throws, and emits no wire
event in either case (the second component is the emitted events). -/
def cancelTestExecution (reg : List (String × Bool)) (id : String) :
    List (String × Bool) × List Event :=
  match reg.find? (fun p => p.1 == id) with
  | some _ => (reg.map (fun p => if p.1 == id then (p.1, true) else p), [])
  | none => (reg, [])

/-- the `finally` block of `executeTest` (testExecutor.ts:644-652): on
reaching a terminal state the run is deleted from the registry. -/
def releaseExecution (reg : List (String × Bool)) (id : String) :
    List (String × Bool) :=
  reg.filter (fun p => !(p.1 == id))

theorem find?_release (reg : List (String × Bool)) (id : String) :
    (releaseExecution reg id).find? (fun p => p.1 == id) = none := by
  induction reg with
  | nil => rfl
  | cons p t ih =>
    cases hp : p.1 == id with
    | true =>
      simp only [releaseExecution, List.filter_cons, hp, Bool.not_true, if_false]
      exact ih
    | false =>
      simp only [releaseExecution, List.filter_cons, hp, Bool.not_false, if_true]
      rw [List.find?_cons_of_neg _ (by simp [hp])]
      exact ih

/-- C6: requesting cancellation for a run id that is not registered — in
particular for a run that reached a terminal state, since the `finally`
block deletes it — is a no-op: no exception (the function is total and
returns), no event, and no registry change. -/
theorem c6_cancel_absent_noop (reg : List (String × Bool)) (id : String)
    (h : regLookup reg id = none) :
    cancelTestExecution reg id = (reg, []) ∧
    regLookup (releaseExecution reg id) id = none ∧
    cancelTestExecution (releaseExecution reg id) id = (releaseExecution reg id, []) := by
  have hf : reg.find? (fun p => p.1 == id) = none := by
    unfold regLookup at h
    cases hq : reg.find? (fun p => p.1 == id) with
    | none => rfl
    | some p =>
      rw [hq] at h
      simp at h
  refine ⟨?_, ?_, ?_⟩
  · unfold cancelTestExecution
    rw [hf]
  · unfold regLookup
    rw [find?_release]
    rfl
  · unfold cancelTestExecution
    rw [find?_release]

/-- C6 witness: a registry holding only the live run `t2`; cancelling the
unknown (or released) id `t1` changes nothing and emits nothing. -/
theorem c6_cancel_absent_noop_witness :
    cancelTestExecution [("t2", false)] "t1" = ([("t2", false)], []) ∧
    regLookup (releaseExecution [("t2", false)] "t1") "t1" = none ∧
    cancelTestExecution (releaseExecution [("t2", false)] "t1") "t1" =
      (releaseExecution [("t2", false)] "t1", []) :=
  c6_cancel_absent_noop [("t2", false)] "t1" (by decide)

/- ### Click target resolution (executeStep click case, testExecutor.ts:679-1021) -/

def patContains : String := ":contains"

def patHasText : String := ":has-text"

def patHref : String := "href"

def dquoteStr : String := "\x22"

def spaceStr : String := " "

def isQuoteC (c : Char) : Bool := c == quoteD || c == quoteS

/-- after an opening quote: walk the `[^"\x27]*` span to the next quote and
report whether a space occurred before it. -/
def spanScan : List Char → Bool → Bool
  | [], _ => false
  | c :: rest, seen => if isQuoteC c then seen else spanScan rest (seen || c == spaceChar)

/-- somewhere a quote opens a quote-to-quote span containing a space. -/
def quoteSpanWithSpace : List Char → Bool
  | [] => false
  | c :: rest =>
    (if isQuoteC c then spanScan rest false else false) || quoteSpanWithSpace rest

/-- the regex test `href.*["\x27][^"\x27]* [^"\x27]*["\x27]` of
testExecutor.ts:691 (newlines aside, `.*` defers to any later quote span). -/
def hrefSpacePattern : List Char → Bool
  | [] => false
  | c :: rest =>
    (matchesAt patHref.data (c :: rest) && quoteSpanWithSpace ((c :: rest).drop 4)) ||
      hrefSpacePattern rest

/-- the early rejection of unsupported selector syntax
(testExecutor.ts:685-696), applied to the trimmed target. -/
def rejectClickTarget (cleanTarget : String) : Bool :=
  strIncludes cleanTarget patContains || strIncludes cleanTarget patHasText ||
    (strIncludes cleanTarget patHref && strIncludes cleanTarget dquoteStr &&
      hrefSpacePattern cleanTarget.data)

/-- per-strategy oracle: whether strategy `n`, when allowed to run, finds a
clickable match on the live page. -/
structure ClickEnv where
  stratHit : Nat → Bool

def dotChar : Char := Char.ofNat 46

def hashChar : Char := Char.ofNat 35

def lbrackChar : Char := Char.ofNat 91

def gtChar : Char := Char.ofNat 62

def tildeChar : Char := Char.ofNat 126

def startsWithC (s : String) (c : Char) : Bool :=
  match s.data with
  | [] => false
  | h :: _ => h == c

/-- the guard of the CSS-fallback strategy (testExecutor.ts:944-965): only
try the raw target as a CSS selector when it looks like one. -/
def cssLooksLikeSelector (target : String) : Bool :=
  !(strIncludes target patContains) && !(strIncludes target patHasText) &&
    (startsWithC target dotChar || startsWithC target hashChar ||
     startsWithC target lbrackChar || strIncludes target spaceStr ||
     strIncludes target (String.mk [gtChar]) ||
     strIncludes target (String.mk [plusChar]) ||
     strIncludes target (String.mk [tildeChar]))

/-- applicability and success of strategy `n` in the declared chain of 18:
index 6 is the context-scoped strategy (needs a context hint), index 15 the
CSS fallback (needs a selector-looking raw target), index 17 the
href-substring strategy (skipped when the trimmed target contains a space);
each also depends on the page through the oracle. -/
def strategySucceeds (env : ClickEnv) (target clean : String) (ctx : Option String)
    (n : Nat) : Bool :=
  if n = 6 then ctx.isSome && env.stratHit n
  else if n = 15 then cssLooksLikeSelector target && env.stratHit n
  else if n = 17 then !(strIncludes clean spaceStr) && env.stratHit n
  else env.stratHit n

/-- run the chain in declared order: stop at the first success; every tried
index is recorded. -/
def tryStrategies (env : ClickEnv) (target clean : String) (ctx : Option String) :
    List Nat → List Nat × Bool
  | [] => ([], false)
  | n :: rest =>
    if strategySucceeds env target clean ctx n then ([n], true)
    else
      let r := tryStrategies env target clean ctx rest
      (n :: r.1, r.2)

structure ClickResult where
  attempted : List Nat
  thrown : Option String
  deriving DecidableEq, Repr

def msgClickRequiresTarget : String := "Click action requires target"

def msgInvalidSelector (t : String) : String :=
  "Invalid selector generated: \x22" ++ t ++ "\x22. Use plain text instead"

def msgAllStrategiesFailed (t : String) : String :=
  "Failed to click \x22" ++ t ++ "\x22 after trying multiple strategies"

/-- the click case of `executeStep`: validate the target, reject unsupported
pseudo-selector syntax before the strategy chain, then try the 18 strategies
in order. -/
def executeClick (env : ClickEnv) (target : Option String) (ctx : Option String) :
    ClickResult :=
  match target with
  | none => { attempted := [], thrown := some msgClickRequiresTarget }
  | some t =>
    if t = "" then { attempted := [], thrown := some msgClickRequiresTarget }
    else
      let clean := jsTrim t
      if rejectClickTarget clean then
        { attempted := [], thrown := some (msgInvalidSelector t) }
      else
        let r := tryStrategies env t clean ctx (List.range 18)
        if r.2 then { attempted := r.1, thrown := none }
        else { attempted := r.1, thrown := some (msgAllStrategiesFailed t) }

/-- C7: a click target whose trimmed form contains `:contains` or
`:has-text` is rejected with an error before any strategy of the chain is
attempted — for every page oracle the attempted list is empty. -/
theorem c7_pseudo_selector_rejected_early (env : ClickEnv) (t : String)
    (ctx : Option String)
    (h : strIncludes (jsTrim t) patContains = true ∨
         strIncludes (jsTrim t) patHasText = true) :
    (executeClick env (some t) ctx).attempted = [] ∧
    (executeClick env (some t) ctx).thrown = some (msgInvalidSelector t) := by
  have hrej : rejectClickTarget (jsTrim t) = true := by
    unfold rejectClickTarget
    rcases h with h | h <;> simp [h]
  by_cases ht : t = ""
  · exfalso
    subst ht
    rcases h with h | h <;> exact absurd h (by decide)
  · simp [executeClick, ht, hrej]

/-- C7 witness: a pseudo-selector target is rejected even though every
strategy would succeed if tried. -/
theorem c7_pseudo_selector_rejected_early_witness :
    (executeClick ⟨fun _ => true⟩ (some "button:contains(Download)") none).attempted = [] ∧
    (executeClick ⟨fun _ => true⟩ (some "button:contains(Download)") none).thrown =
      some (msgInvalidSelector "button:contains(Download)") :=
  c7_pseudo_selector_rejected_early ⟨fun _ => true⟩ "button:contains(Download)" none
    (Or.inl (by decide))

/- ### Page inventory scanner (pageInspector.ts) -/

/-- a located button element, as the per-element probes observe it:
`textContent().catch(null)`, `evaluate(tagName).catch("unknown")`,
`isVisible().catch(false)`; `throws` marks an element whose inspection
escapes to the per-element `catch`. -/
structure RawButton where
  textR : Option String
  tagR : String
  visR : Bool
  throws : Bool

structure RawLink where
  textR : Option String
  hrefR : Option String
  visR : Bool
  throws : Bool

structure RawInput where
  placeholderR : Option String
  labelR : Option String
  typeR : Option String
  idR : Option String
  visR : Bool
  throws : Bool

structure ButtonInfo where
  text : String
  visible : Bool
  tag : String
  deriving DecidableEq, Repr

structure LinkInfo where
  text : String
  visible : Bool
  href : Option String
  deriving DecidableEq, Repr

structure InputInfo where
  placeholder : Option String
  label : Option String
  type : Option String
  id : Option String
  visible : Bool
  deriving DecidableEq, Repr

/-- JS `x || undefined` for a string-or-null `x`. -/
def orUndefined : Option String → Option String
  | none => none
  | some v => if v = "" then none else some v

/-- one iteration of the button loop (pageInspector.ts:37-54): a throwing
element is skipped, an element is kept when `text && text.trim()`. -/
def processButton (e : RawButton) : Option ButtonInfo :=
  if e.throws then none
  else match e.textR with
    | none => none
    | some t =>
      if jsTrim t = "" then none
      else some { text := jsTrim t, visible := e.visR, tag := e.tagR }

/-- one iteration of the link loop (pageInspector.ts:58-73). -/
def processLink (e : RawLink) : Option LinkInfo :=
  if e.throws then none
  else match e.textR with
    | none => none
    | some t =>
      if jsTrim t = "" then none
      else some { text := jsTrim t, visible := e.visR, href := orUndefined e.hrefR }

/-- one iteration of the input loop (pageInspector.ts:77-101): every
non-throwing input is kept. -/
def processInput (e : RawInput) : Option InputInfo :=
  if e.throws then none
  else some
    { placeholder := orUndefined e.placeholderR
    , label := orUndefined (e.labelR.map jsTrim)
    , type := orUndefined e.typeR
    , id := orUndefined e.idR
    , visible := e.visR }

structure RawPage where
  buttons : List RawButton
  links : List RawLink
  inputs : List RawInput

structure PageData where
  buttons : List ButtonInfo
  links : List LinkInfo
  inputs : List InputInfo
  deriving DecidableEq, Repr

/-- `inspectPage` (pageInspector.ts:7-107): each category walks the first
50 located elements (`slice(0, 50)`); a per-element failure skips only that
element. -/
def inspectPage (raw : RawPage) : PageData :=
  { buttons := (raw.buttons.take 50).filterMap processButton
  , links := (raw.links.take 50).filterMap processLink
  , inputs := (raw.inputs.take 50).filterMap processInput }

/-- C8 amended: the scan is best-effort — an element whose inspection
throws is swallowed and skipped, the rest of the loop is unaffected — and
each result category holds at most 50 items; but the categories are NOT
deduplicated by text. -/
theorem c8_best_effort_capped (raw : RawPage)
    (pre post : List RawButton) (bad : RawButton) (hb : bad.throws = true)
    (preL postL : List RawLink) (badL : RawLink) (hl : badL.throws = true)
    (preI postI : List RawInput) (badI : RawInput) (hi : badI.throws = true) :
    ((pre ++ bad :: post).filterMap processButton =
      (pre ++ post).filterMap processButton) ∧
    ((preL ++ badL :: postL).filterMap processLink =
      (preL ++ postL).filterMap processLink) ∧
    ((preI ++ badI :: postI).filterMap processInput =
      (preI ++ postI).filterMap processInput) ∧
    (inspectPage raw).buttons.length ≤ 50 ∧
    (inspectPage raw).links.length ≤ 50 ∧
    (inspectPage raw).inputs.length ≤ 50 := by
  refine ⟨?_, ?_, ?_, ?_, ?_, ?_⟩
  · simp [List.filterMap_append, List.filterMap_cons, processButton, hb]
  · simp [List.filterMap_append, List.filterMap_cons, processLink, hl]
  · simp [List.filterMap_append, List.filterMap_cons, processInput, hi]
  · calc (inspectPage raw).buttons.length
        ≤ (raw.buttons.take 50).length := List.length_filterMap_le _ _
      _ ≤ 50 := by simp [List.length_take]
  · calc (inspectPage raw).links.length
        ≤ (raw.links.take 50).length := List.length_filterMap_le _ _
      _ ≤ 50 := by simp [List.length_take]
  · calc (inspectPage raw).inputs.length
        ≤ (raw.inputs.take 50).length := List.length_filterMap_le _ _
      _ ≤ 50 := by simp [List.length_take]

def dupButton : RawButton :=
  { textR := some "OK", tagR := "button", visR := true, throws := false }

def badButton : RawButton :=
  { textR := some "X", tagR := "button", visR := true, throws := true }

def badLink : RawLink :=
  { textR := some "X", hrefR := none, visR := true, throws := true }

def badInput : RawInput :=
  { placeholderR := none, labelR := none, typeR := none, idR := none,
    visR := true, throws := true }

def rawDup : RawPage := { buttons := [dupButton, dupButton], links := [], inputs := [] }

/-- C8 counterexample: two buttons sharing the text "OK" both end up in the
result — the category is not deduplicated by text, so the claimed "no two
entries with the same text" fails. -/
theorem c8_dedup_counterexample :
    (inspectPage rawDup).buttons.map ButtonInfo.text = ["OK", "OK"] ∧
    ¬ ((inspectPage rawDup).buttons.map ButtonInfo.text).Nodup := by
  constructor
  · decide
  · decide

/-- C8 amended witness: a concrete page where the second button of three
throws — it alone is skipped — and the caps hold. -/
theorem c8_best_effort_capped_witness :
    (([dupButton] ++ badButton :: [dupButton]).filterMap processButton =
      ([dupButton] ++ [dupButton]).filterMap processButton) ∧
    (([] ++ badLink :: []).filterMap processLink = (([] : List RawLink) ++ []).filterMap processLink) ∧
    (([] ++ badInput :: []).filterMap processInput = (([] : List RawInput) ++ []).filterMap processInput) ∧
    (inspectPage rawDup).buttons.length ≤ 50 ∧
    (inspectPage rawDup).links.length ≤ 50 ∧
    (inspectPage rawDup).inputs.length ≤ 50 :=
  c8_best_effort_capped rawDup [dupButton] [dupButton] badButton rfl
    [] [] badLink rfl [] [] badInput rfl

/- ### Credential injection (ai/geminiAgent.ts:168-189; testExecutor.ts:507-514) -/

def lbraceChar : Char := Char.ofNat 123

def rbraceChar : Char := Char.ofNat 125

/-- the placeholder pattern of a credential key (the literal text matched by
the escaped-brace regex the source builds for each key). -/
def placeholderOf (key : String) : String :=
  String.mk (lbraceChar :: lbraceChar :: (key.data ++ [rbraceChar, rbraceChar]))

/-- substitute every credential into one value string, in map order
(`Object.entries(credentials).forEach(...)`; each entry applies a global
replace of its placeholder). -/
def substituteValue (cs : List (String × String)) (v : String) : String :=
  cs.foldl (fun acc kv => jsReplaceAll (placeholderOf kv.1) kv.2 acc) v

/-- the body of `steps.map` in `injectCredentials`: copy the step and
replace placeholders in a truthy `value` field. -/
def injectStep (cs : List (String × String)) (step : StructuredStep) : StructuredStep :=
  match step.value with
  | none => step
  | some v =>
    if v = "" then step
    else { step with value := some (substituteValue cs v) }

/-- `injectCredentials` (geminiAgent.ts:168-189): identity without a
credential map, otherwise placeholder substitution in each value field. -/
def injectCredentials (steps : List StructuredStep)
    (creds : Option (List (String × String))) : List StructuredStep :=
  match creds with
  | none => steps
  | some cs => steps.map (injectStep cs)

structure PageElements where
  buttons : List String
  links : List String
  inputs : List String

/-- the step-preparation pipeline of `executeTest` (testExecutor.ts:507-514):
the generator receives the prompt, the url and the page inventory — not the
credential map — and the substitution is applied to its finished output. -/
def prepareSteps (generator : String → String → PageElements → List StructuredStep)
    (prompt url : String) (pels : PageElements)
    (creds : Option (List (String × String))) : List StructuredStep :=
  injectCredentials (generator prompt url pels) creds

theorem injectStep_action (cs : List (String × String)) (st : StructuredStep) :
    (injectStep cs st).action = st.action := by
  unfold injectStep
  cases st.value with
  | none => rfl
  | some v =>
    by_cases hv : v = "" <;> simp [hv]

theorem injectStep_target (cs : List (String × String)) (st : StructuredStep) :
    (injectStep cs st).target = st.target := by
  unfold injectStep
  cases st.value with
  | none => rfl
  | some v =>
    by_cases hv : v = "" <;> simp [hv]

theorem injectStep_assertion (cs : List (String × String)) (st : StructuredStep) :
    (injectStep cs st).assertion = st.assertion := by
  unfold injectStep
  cases st.value with
  | none => rfl
  | some v =>
    by_cases hv : v = "" <;> simp [hv]

theorem injectStep_description (cs : List (String × String)) (st : StructuredStep) :
    (injectStep cs st).description = st.description := by
  unfold injectStep
  cases st.value with
  | none => rfl
  | some v =>
    by_cases hv : v = "" <;> simp [hv]

theorem injectStep_value (cs : List (String × String)) (st : StructuredStep) :
    (injectStep cs st).value =
      st.value.map (fun v => if v = "" then v else substituteValue cs v) := by
  unfold injectStep
  cases hv : st.value with
  | none => simp [hv]
  | some v =>
    by_cases he : v = "" <;> simp [he, hv]

theorem placeholderOf_ne_nil (key : String) : (placeholderOf key).data ≠ [] := by
  simp [placeholderOf]

def backslashChar : Char := Char.ofNat 92

def caretChar : Char := Char.ofNat 94

def pipeChar : Char := Char.ofNat 124

def qmarkChar : Char := Char.ofNat 63

def starChar : Char := Char.ofNat 42

def lparenChar : Char := Char.ofNat 40

def rparenChar : Char := Char.ofNat 41

def rbrackChar : Char := Char.ofNat 93

/-- characters that are special in a JS regex; the source interpolates the
key into the regex source unescaped, so the built pattern is the literal
placeholder text exactly when the key contains none of these. -/
def isRegexSpecial (c : Char) : Bool :=
  c == backslashChar || c == caretChar || c == dollarChar || c == dotChar ||
  c == pipeChar || c == qmarkChar || c == starChar || c == plusChar ||
  c == lparenChar || c == rparenChar || c == lbrackChar || c == rbrackChar ||
  c == lbraceChar || c == rbraceChar

def pwPlaceholder : String := "\x7b\x7bpassword\x7d\x7d"

def stepPw : StructuredStep :=
  { action := TestAction.fill, target := some "password input",
    value := some pwPlaceholder, assertion := none, description := "enter password" }

/-- C9 counterexample: the claim states that every occurrence of
`\x7b\x7bkey\x7d\x7d` is replaced "with that key's value".  For the key
`password` with value `pa$$word` and a step whose value is exactly the
placeholder, the program inserts `pa$word` — ECMAScript GetSubstitution
collapses the `$$` in the string replacement — not the key's value
`pa$$word`. -/
theorem c9_credential_substitution_counterexample :
    stepPw.value = some pwPlaceholder ∧
    (injectCredentials [stepPw] (some [("password", "pa$$word")])).map
      StructuredStep.value = [some "pa$word"] ∧
    ("pa$word" : String) ≠ "pa$$word" := by
  refine ⟨rfl, ?_, ?_⟩
  · decide
  · decide

/-- C9 amended: credential substitution is applied only after step
generation, to the generated steps, and the generator receives the prompt,
url and page inventory — never the credential map; with no credential map
it is the identity; it leaves `action`, `target`, `assertion` and
`description` of every step unchanged and rewrites only truthy `value`
fields, substituting the credentials in map order; and for a key free of
regex metacharacters (so the built regex matches the literal placeholder)
whose value contains no `$` (so GetSubstitution inserts it verbatim), each
single-key substitution replaces every occurrence of the
`\x7b\x7bkey\x7d\x7d` placeholder with that key's value — values containing
`$` are inserted as their GetSubstitution image instead. -/
theorem c9_credential_substitution_amended
    (steps : List StructuredStep) (cs : List (String × String))
    (generator : String → String → PageElements → List StructuredStep)
    (prompt url : String) (pels : PageElements)
    (key rep v : String)
    (_hkey : ∀ c ∈ key.data, isRegexSpecial c = false)
    (hrep : noDollar rep.data = true) :
    prepareSteps generator prompt url pels (some cs) =
      injectCredentials (generator prompt url pels) (some cs) ∧
    injectCredentials steps none = steps ∧
    (injectCredentials steps (some cs)).map StructuredStep.action =
      steps.map StructuredStep.action ∧
    (injectCredentials steps (some cs)).map StructuredStep.target =
      steps.map StructuredStep.target ∧
    (injectCredentials steps (some cs)).map StructuredStep.assertion =
      steps.map StructuredStep.assertion ∧
    (injectCredentials steps (some cs)).map StructuredStep.description =
      steps.map StructuredStep.description ∧
    (injectCredentials steps (some cs)).map StructuredStep.value =
      steps.map (fun st => st.value.map
        (fun v2 => if v2 = "" then v2 else substituteValue cs v2)) ∧
    SubstitutesEveryOccurrence (placeholderOf key).data rep.data v.data
      (jsReplaceAll (placeholderOf key) rep v).data := by
  refine ⟨rfl, rfl, ?_, ?_, ?_, ?_, ?_,
    jsReplaceAll_substitutes (placeholderOf key) rep v (placeholderOf_ne_nil key) hrep⟩
  · simp [injectCredentials, List.map_map, Function.comp, injectStep_action]
  · simp [injectCredentials, List.map_map, Function.comp, injectStep_target]
  · simp [injectCredentials, List.map_map, Function.comp, injectStep_assertion]
  · simp [injectCredentials, List.map_map, Function.comp, injectStep_description]
  · simp [injectCredentials, List.map_map, Function.comp, injectStep_value]

def emailPlaceholder : String := "\x7b\x7bemail\x7d\x7d"

/-- C9 amended witness: the metacharacter-free key `email` with the
dollar-free value `user1` substitutes verbatim into a subject that is
exactly the placeholder. -/
theorem c9_credential_substitution_amended_witness :
    SubstitutesEveryOccurrence (placeholderOf "email").data ("user1" : String).data
      emailPlaceholder.data
      (jsReplaceAll (placeholderOf "email") "user1" emailPlaceholder).data :=
  (c9_credential_substitution_amended [] [] (fun _ _ _ => []) "p" "u"
      ⟨[], [], []⟩ "email" "user1" emailPlaceholder
      (by decide) (by decide)).2.2.2.2.2.2.2

end QP
